import Mathlib

/-
Verification development for the vvander fog-of-war map engine (`src/App.tsx`).

The spatial core of the app is shallowly embedded here:
resolution selection, the grid-cell hex cache, the hex set assembler,
directional prefetch, the visited resolver and the fog polygon builder.
Geographic coordinates are degrees, embedded as exact rationals.
The external H3 tiling library (polyfill, h3ToParent) is not part of the
repository; it is modelled from the specification where stated.
The module-level mutable `hexGridCache` (a JS `Map`) becomes explicit
state threaded through the functions that read and write it.
-/

namespace Vvander

/-- A (latitude, longitude) vertex; the source uses `{latitude, longitude}`
records and `[lat, lng]` arrays, both embedded as a pair. -/
abbrev Pt := ℚ × ℚ

/-- A hex identifier.  H3 ids encode the resolution; the model carries the
resolution together with two integer tiling indices. -/
abbrev HexId := ℕ × ℤ × ℤ

/-- Cache key, embedding the source string key template of resolution,
latitude cell and longitude cell. -/
abbrev GridKey := ℕ × ℤ × ℤ

/-- A react-native-maps region: center plus angular spans. -/
structure Region where
  latitude : ℚ
  longitude : ℚ
  latitudeDelta : ℚ
  longitudeDelta : ℚ
deriving DecidableEq

/-- Hexes are stored at resolution 10. -/
def STORAGE_RES : ℕ := 10

/-- Pick H3 resolution based on map zoom (latitudeDelta); from `getDisplayRes`. -/
def getDisplayRes (latDelta : ℚ) : ℕ :=
  if latDelta < 0.04 then 10
  else if latDelta < 0.1 then 9
  else if latDelta < 0.3 then 8
  else if latDelta < 0.9 then 7
  else if latDelta < 2 then 6
  else if latDelta < 4 then 5
  else if latDelta < 10 then 4
  else if latDelta < 22 then 3
  else if latDelta < 50 then 2
  else if latDelta < 90 then 1
  else 0

/-- Padding in degrees per resolution; from `HEX_PADDING`, with the source
fallback `HEX_PADDING[res] || 0.01` for resolutions outside the table. -/
def hexPadding (res : ℕ) : ℚ :=
  match res with
  | 0 => 50
  | 1 => 20
  | 2 => 8
  | 3 => 3
  | 4 => 1.2
  | 5 => 0.45
  | 6 => 0.17
  | 7 => 0.065
  | 8 => 0.025
  | 9 => 0.01
  | 10 => 0.004
  | _ => 0.01

/-- Grid cell sizes per resolution; from `GRID_CELL_SIZE`, with the source
fallback `GRID_CELL_SIZE[res] || 0.1`. -/
def gridCellSize (res : ℕ) : ℚ :=
  match res with
  | 0 => 30
  | 1 => 10
  | 2 => 5
  | 3 => 2
  | 4 => 1
  | 5 => 0.5
  | 6 => 0.2
  | 7 => 0.1
  | 8 => 0.05
  | 9 => 0.02
  | 10 => 0.01
  | _ => 0.1

/-- Modelled from the spec: the angular footprint size of one hex at a
resolution.  The external H3 library fixes the real sizes; the model only
needs a positive size per resolution, chosen relative to the grid cell
size (the spec tunes cells to hold a bounded number of hexes). -/
def hexSize (res : ℕ) : ℚ := gridCellSize res / 2

/-- Inclusive integer range as a list. -/
def intRange (a b : ℤ) : List ℤ :=
  (List.range (b + 1 - a).toNat).map (fun n => a + Nat.cast n)

/-- Modelled from the spec: the hex identifiers whose footprint meets the
closed box; the glossary describes the fill as producing all hexes
intersecting a given rectangle at a given resolution.  In the model a hex
`(res, i, j)` occupies latitudes `[i*hexSize, (i+1)*hexSize)` and the
analogous longitudes, so the ids intersecting the box form a floor-bounded
index rectangle. -/
def hexesInBox (res : ℕ) (latMin latMax lngMin lngMax : ℚ) : List HexId :=
  (intRange ⌊latMin / hexSize res⌋ ⌊latMax / hexSize res⌋).flatMap
    (fun i => (intRange ⌊lngMin / hexSize res⌋ ⌊lngMax / hexSize res⌋).map
      (fun j => (res, i, j)))

/-- Modelled from the spec: the external H3 `polyfill`.  The repository only
ever passes rectangles, so the model fills the bounding box of the given
vertex list.  The boolean mirrors the geojson flag of the source calls. -/
def polyfill (bounds : List Pt) (res : ℕ) (_geojson : Bool) : List HexId :=
  match bounds with
  | [] => []
  | p :: rest =>
    let latMin := rest.foldl (fun m q => min m q.1) p.1
    let latMax := rest.foldl (fun m q => max m q.1) p.1
    let lngMin := rest.foldl (fun m q => min m q.2) p.2
    let lngMax := rest.foldl (fun m q => max m q.2) p.2
    hexesInBox res latMin latMax lngMin lngMax

/-- Bounds for a grid cell; from `getGridCellBounds`. -/
def getGridCellBounds (latCell lngCell : ℤ) (cellSize : ℚ) : List Pt :=
  let minLat := (latCell : ℚ) * cellSize
  let maxLat := ((latCell : ℚ) + 1) * cellSize
  let minLng := (lngCell : ℚ) * cellSize
  let maxLng := ((lngCell : ℚ) + 1) * cellSize
  [ (maxLat, minLng), (maxLat, maxLng), (minLat, maxLng), (minLat, minLng) ]

/-- Compute hexes for a single grid cell; from `computeGridCellHexes`. -/
def computeGridCellHexes (latCell lngCell : ℤ) (res : ℕ) : List HexId :=
  let cellSize := gridCellSize res
  let bounds := getGridCellBounds latCell lngCell cellSize
  polyfill bounds res false

/-- All grid cells overlapping a region, with padding; from
`getGridCellsForRegion`. -/
def getGridCellsForRegion (region : Region) (res : ℕ) (expansionMultiplier : ℚ) :
    List (ℤ × ℤ) :=
  let pad := hexPadding res
  let cellSize := gridCellSize res
  let expandedLatDelta := region.latitudeDelta * expansionMultiplier
  let expandedLngDelta := region.longitudeDelta * expansionMultiplier
  let minLat := region.latitude - expandedLatDelta / 2 - pad
  let maxLat := region.latitude + expandedLatDelta / 2 + pad
  let minLng := region.longitude - expandedLngDelta / 2 - pad
  let maxLng := region.longitude + expandedLngDelta / 2 + pad
  let minLatCell := ⌊minLat / cellSize⌋
  let maxLatCell := ⌊maxLat / cellSize⌋
  let minLngCell := ⌊minLng / cellSize⌋
  let maxLngCell := ⌊maxLng / cellSize⌋
  (intRange minLatCell maxLatCell).flatMap
    (fun la => (intRange minLngCell maxLngCell).map (fun ln => (la, ln)))

/-- The grid-based hex cache, the explicit-state embedding of the
module-level `hexGridCache : Map<string, string[]>`. -/
abbrev GridCache := List (GridKey × List HexId)

/-- Map lookup on the cache; embeds `hexGridCache.get(key)`. -/
def cacheGet : GridCache → GridKey → Option (List HexId)
  | [], _ => none
  | (k, v) :: rest, key => if key = k then some v else cacheGet rest key

/-- Result of one assembler run: deduplicated hexes in first-insertion
order, the hit and miss counters, and the cache after the run. -/
structure CacheRunResult where
  hexes : List HexId
  cacheHits : ℕ
  cacheMisses : ℕ
  cache : GridCache
deriving DecidableEq

/-- Add one hex to the accumulator unless already present; embeds
`allHexes.add(h3)` on a JS `Set` keeping insertion order. -/
def insertAbsent (acc : List HexId) (h : HexId) : List HexId :=
  if h ∈ acc then acc else acc ++ [h]

/-- Add a cell hex list to the accumulator; embeds the inner `for` loop of
`getHexesFromGridCache`. -/
def addHexes (acc : List HexId) (cellHexes : List HexId) : List HexId :=
  cellHexes.foldl insertAbsent acc

/-- The cell loop of `getHexesFromGridCache`: look each cell up, on a miss
compute and store, and accumulate the deduplicated union. -/
def processCells (res : ℕ) :
    List (ℤ × ℤ) → GridCache → List HexId → ℕ → ℕ → CacheRunResult
  | [], cache, acc, hits, misses => ⟨acc, hits, misses, cache⟩
  | (latCell, lngCell) :: rest, cache, acc, hits, misses =>
    match cacheGet cache (res, latCell, lngCell) with
    | some cellHexes =>
      processCells res rest cache (addHexes acc cellHexes) (hits + 1) misses
    | none =>
      let cellHexes := computeGridCellHexes latCell lngCell res
      processCells res rest (((res, latCell, lngCell), cellHexes) :: cache)
        (addHexes acc cellHexes) hits (misses + 1)

/-- Hexes for a region using the grid cache; from `getHexesFromGridCache`.
The source default `expansionMultiplier = 1` is passed explicitly at the
call sites embedded below. -/
def getHexesFromGridCache (cache : GridCache) (region : Region) (res : ℕ)
    (expansionMultiplier : ℚ) : CacheRunResult :=
  processCells res (getGridCellsForRegion region res expansionMultiplier)
    cache [] 0 0

/-- The cache is coherent when every stored entry is the computed fill of
its own key.  The process-lifetime cache starts empty and is only ever
populated through `computeGridCellHexes`, so this is an invariant of the
running program. -/
def Coherent (cache : GridCache) : Prop :=
  ∀ res latCell lngCell v, cacheGet cache (res, latCell, lngCell) = some v →
    v = computeGridCellHexes latCell lngCell res

/-- The offset region built by `prefetchInDirection`: center moved one
viewport span along the pan direction, both spans doubled. -/
def prefetchOffsetRegion (region : Region) (direction : ℤ × ℤ) : Region :=
  ⟨ region.latitude + (direction.1 : ℚ) * region.latitudeDelta,
    region.longitude + (direction.2 : ℚ) * region.longitudeDelta,
    region.latitudeDelta * 2,
    region.longitudeDelta * 2 ⟩

/-- Prefetch grid cells in a pan direction; from `prefetchInDirection`.
The assembler is invoked with the default multiplier 1. -/
def prefetchInDirection (cache : GridCache) (region : Region) (res : ℕ)
    (direction : ℤ × ℤ) : ℕ × ℕ × GridCache :=
  let offsetRegion := prefetchOffsetRegion region direction
  let r := getHexesFromGridCache cache offsetRegion res 1
  (r.cacheHits, r.cacheMisses, r.cache)

/-- Pan-direction detection from the prefetch effect: each axis is -1, 0
or 1, with a noise threshold of a tenth of the latitude span. -/
def detectDirection (prevRegion : Option Region) (region : Region) : ℤ × ℤ :=
  match prevRegion with
  | none => (0, 0)
  | some prev =>
    let latDelta := region.latitude - prev.latitude
    let lngDelta := region.longitude - prev.longitude
    let threshold := region.latitudeDelta * 0.1
    let dlat : ℤ := if threshold < |latDelta| then (if 0 < latDelta then 1 else -1) else 0
    let dlng : ℤ := if threshold < |lngDelta| then (if 0 < lngDelta then 1 else -1) else 0
    (dlat, dlng)

/-- Modelled from the spec: the external H3 `h3ToParent`, the hierarchical
ancestor of a hex at a coarser resolution.  In the footprint model the
ancestor is the coarser cell containing the origin corner of the fine
cell. -/
def h3ToParent (h : HexId) (parentRes : ℕ) : HexId :=
  (parentRes,
   ⌊(h.2.1 : ℚ) * hexSize h.1 / hexSize parentRes⌋,
   ⌊(h.2.2 : ℚ) * hexSize h.1 / hexSize parentRes⌋)

/-- Visited hexes as a set at display resolution; from `getVisitedAtRes`. -/
def getVisitedAtRes (visited : List HexId) (displayRes : ℕ) : Finset HexId :=
  visited.foldl
    (fun s h => if STORAGE_RES ≤ displayRes then insert h s
                else insert (h3ToParent h displayRes) s) ∅

/-- The scan of `toClosedLatLngRing` dropping consecutive duplicates, with
the previous kept vertex as state. -/
def dedupGo (prev : Pt) : List Pt → List Pt
  | [] => []
  | x :: xs => if x = prev then dedupGo prev xs else x :: dedupGo x xs

/-- Remove consecutive duplicate vertices; the NaN sentinel of the source
makes the first vertex always kept, embedded by seeding with the head. -/
def dedupConsec : List Pt → List Pt
  | [] => []
  | a :: rest => a :: dedupGo a rest

/-- Close a nonempty ring by repeating the first vertex when the last one
differs; from the closing step of `toClosedLatLngRing`. -/
def closeRing : List Pt → List Pt
  | [] => []
  | a :: rest =>
    if (a :: rest).getLast? = some a then a :: rest else (a :: rest) ++ [a]

/-- Build a ring matching renderer expectations: consecutive duplicates
removed, first point repeated at the end; from `toClosedLatLngRing`. -/
def toClosedLatLngRing (coords : List Pt) : List Pt :=
  closeRing (dedupConsec coords)

/-- Convert a region into a rectangle ring; from `regionToViewportRing`.
The source default `expandMultiplier = 1` is passed explicitly. -/
def regionToViewportRing (region : Region) (expandMultiplier : ℚ) : List Pt :=
  let latHalf := region.latitudeDelta * expandMultiplier / 2
  let lngHalf := region.longitudeDelta * expandMultiplier / 2
  let latMin := region.latitude - latHalf
  let latMax := region.latitude + latHalf
  let lngMin := region.longitude - lngHalf
  let lngMax := region.longitude + lngHalf
  [ (latMin, lngMin), (latMin, lngMax), (latMax, lngMax), (latMax, lngMin),
    (latMin, lngMin) ]

/-- The fixed fog outer boundary rectangle, clockwise SW NW NE SE SW; from
`fogOuterRing` in the fog memo. -/
def fogOuterRing : List Pt :=
  [ (20, -130), (55, -130), (55, -60), (20, -60), (20, -130) ]

/-- The degraded-state status string of the fog memo, reporting the hex
count. -/
def capMessage (n : ℕ) : String :=
  "Tiles hidden: too many hexes (" ++ toString n ++ ")"

/-- The polygon key of the fog memo. -/
def fogKey (displayRes : ℕ) : String :=
  "fog-viewport-" ++ toString displayRes

/-- One rendered fog polygon: key, outer ring coordinates, hole rings. -/
structure FogPoly where
  key : String
  coordinates : List Pt
  holes : List (List Pt)
deriving DecidableEq

/-- The value produced by the fog memo. -/
structure FogOut where
  fogPolygons : List FogPoly
  fogStatus : Option String
  displayRes : ℕ
deriving DecidableEq

/-- Convert merged visited outer rings into fog holes, dropping rings of
fewer than 4 vertices; from the hole loop of the fog memo.  The source
reads `poly[0]` for the outer ring, embedded as `headD []`. -/
def holesFromMulti (visitedMulti : List (List (List Pt))) : List (List Pt) :=
  visitedMulti.foldl
    (fun acc poly =>
      let ring := toClosedLatLngRing (poly.headD [])
      if 4 ≤ ring.length then acc ++ [ring] else acc) []

/-- The fog computation of the `useMemo` in `App` for a non-null region,
with the timing and console diagnostics stripped (purely observational in
the source).  The external `h3SetToMultiPolygon` merge is passed in as
`mp`; the result pairs the memo value with the cache state after the run. -/
def fogCompute (mp : List HexId → List (List (List Pt)))
    (cache : GridCache) (visited : List HexId) (region : Region) :
    FogOut × GridCache :=
  let displayRes := getDisplayRes region.latitudeDelta
  let run := getHexesFromGridCache cache region displayRes 4
  let viewportHexes := run.hexes
  if 10000 < viewportHexes.length then
    (⟨[], some (capMessage viewportHexes.length), displayRes⟩, run.cache)
  else
    let visitedSet := getVisitedAtRes visited displayRes
    let visitedNearViewport := viewportHexes.filter (fun h => h ∈ visitedSet)
    if visitedNearViewport.length = 0 then
      (⟨[⟨fogKey displayRes, fogOuterRing, []⟩], none, displayRes⟩, run.cache)
    else if visitedNearViewport.length = viewportHexes.length then
      (⟨[], none, displayRes⟩, run.cache)
    else
      let visitedMulti := mp visitedNearViewport
      let holes := holesFromMulti visitedMulti
      (⟨[⟨fogKey displayRes, fogOuterRing, holes⟩], none, displayRes⟩, run.cache)

/-- A ring is closed when its first and last vertex coincide. -/
def ringClosed (ring : List Pt) : Prop := ring.head? = ring.getLast?

/-- No two consecutive vertices of the ring are identical. -/
def consecDistinct (ring : List Pt) : Prop := ring.Chain' (fun a b => a ≠ b)

/-- An if-chain of threshold and value pairs ending in a default value;
proof-side abstraction of the shape of `getDisplayRes`, related to it by a
definitional equality below. -/
def chainVal : List (ℚ × ℕ) → ℕ → ℚ → ℕ
  | [], deflt, _ => deflt
  | (t, r) :: rest, deflt, d => if d < t then r else chainVal rest deflt d

/-- A concrete region used to exercise the claims: a point viewport with
zero span near the origin, chosen so exactly one grid cell is touched. -/
def wRegion : Region := ⟨1/200, 1/200, 0, 0⟩

/-- The nine modelled hexes of grid cell (0, 0) at resolution 10. -/
def wHexes9 : List HexId :=
  [ (10, 0, 0), (10, 0, 1), (10, 0, 2),
    (10, 1, 0), (10, 1, 1), (10, 1, 2),
    (10, 2, 0), (10, 2, 1), (10, 2, 2) ]

/- Helper lemmas about the tuning tables. -/

lemma gridCellSize_pos (res : ℕ) : 0 < gridCellSize res := by
  rcases res with _|_|_|_|_|_|_|_|_|_|_|n <;> simp [gridCellSize] <;> norm_num

lemma hexSize_pos (res : ℕ) : 0 < hexSize res := by
  have := gridCellSize_pos res
  unfold hexSize; positivity

lemma hexPadding_pos (res : ℕ) : 0 < hexPadding res := by
  rcases res with _|_|_|_|_|_|_|_|_|_|_|n <;> simp [hexPadding] <;> norm_num

/- Helper lemmas about integer ranges and the modelled fill. -/

lemma mem_intRange {a b x : ℤ} : x ∈ intRange a b ↔ a ≤ x ∧ x ≤ b := by
  simp only [intRange, List.mem_map, List.mem_range]
  constructor
  · rintro ⟨n, hn, rfl⟩
    omega
  · intro h
    refine ⟨(x - a).toNat, ?_, ?_⟩
    · omega
    · omega

lemma mem_hexesInBox {res r : ℕ} {i j : ℤ} {latMin latMax lngMin lngMax : ℚ} :
    (r, i, j) ∈ hexesInBox res latMin latMax lngMin lngMax ↔
      r = res ∧
      (⌊latMin / hexSize res⌋ ≤ i ∧ i ≤ ⌊latMax / hexSize res⌋) ∧
      (⌊lngMin / hexSize res⌋ ≤ j ∧ j ≤ ⌊lngMax / hexSize res⌋) := by
  simp only [hexesInBox, List.mem_flatMap, List.mem_map, mem_intRange,
    Prod.mk.injEq]
  constructor
  · rintro ⟨i', hi', j', hj', rfl, rfl, rfl⟩
    exact ⟨rfl, hi', hj'⟩
  · rintro ⟨rfl, hi, hj⟩
    exact ⟨i, hi, j, hj, rfl, rfl, rfl⟩

lemma computeGridCellHexes_eq (latCell lngCell : ℤ) (res : ℕ) :
    computeGridCellHexes latCell lngCell res =
      hexesInBox res
        ((latCell : ℚ) * gridCellSize res) (((latCell : ℚ) + 1) * gridCellSize res)
        ((lngCell : ℚ) * gridCellSize res) (((lngCell : ℚ) + 1) * gridCellSize res) := by
  have hc := (gridCellSize_pos res).le
  have hla : (latCell : ℚ) * gridCellSize res ≤ ((latCell : ℚ) + 1) * gridCellSize res :=
    mul_le_mul_of_nonneg_right (by linarith) hc
  have hln : (lngCell : ℚ) * gridCellSize res ≤ ((lngCell : ℚ) + 1) * gridCellSize res :=
    mul_le_mul_of_nonneg_right (by linarith) hc
  simp [computeGridCellHexes, getGridCellBounds, polyfill, List.foldl,
    min_self, max_self, min_eq_right hla, max_eq_left hla,
    min_eq_left hln, max_eq_right hln, max_eq_left hln]

lemma polyfill_viewportRing (region : Region) (m : ℚ) (res : ℕ) (g : Bool)
    (hd : 0 ≤ region.latitudeDelta * m) (he : 0 ≤ region.longitudeDelta * m) :
    polyfill (regionToViewportRing region m) res g =
      hexesInBox res
        (region.latitude - region.latitudeDelta * m / 2)
        (region.latitude + region.latitudeDelta * m / 2)
        (region.longitude - region.longitudeDelta * m / 2)
        (region.longitude + region.longitudeDelta * m / 2) := by
  have hlat : region.latitude - region.latitudeDelta * m / 2 ≤
      region.latitude + region.latitudeDelta * m / 2 := by linarith
  have hlng : region.longitude - region.longitudeDelta * m / 2 ≤
      region.longitude + region.longitudeDelta * m / 2 := by linarith
  simp [regionToViewportRing, polyfill, List.foldl,
    min_self, max_self, min_eq_left hlat, max_eq_right hlat, max_eq_left hlat,
    min_eq_left hlng, max_eq_right hlng, max_eq_left hlng]

lemma mem_getGridCellsForRegion {region : Region} {res : ℕ} {mult : ℚ}
    {a b : ℤ} :
    (a, b) ∈ getGridCellsForRegion region res mult ↔
      (⌊(region.latitude - region.latitudeDelta * mult / 2 - hexPadding res) /
          gridCellSize res⌋ ≤ a ∧
        a ≤ ⌊(region.latitude + region.latitudeDelta * mult / 2 + hexPadding res) /
          gridCellSize res⌋) ∧
      (⌊(region.longitude - region.longitudeDelta * mult / 2 - hexPadding res) /
          gridCellSize res⌋ ≤ b ∧
        b ≤ ⌊(region.longitude + region.longitudeDelta * mult / 2 + hexPadding res) /
          gridCellSize res⌋) := by
  simp only [getGridCellsForRegion, List.mem_flatMap, List.mem_map, mem_intRange,
    Prod.mk.injEq]
  constructor
  · rintro ⟨la, hla, ln, hln, rfl, rfl⟩
    exact ⟨hla, hln⟩
  · rintro ⟨ha, hb⟩
    exact ⟨a, ha, b, hb, rfl, rfl⟩

/- Helper lemmas about the cache state machine. -/

lemma cacheGet_insert_self (c : GridCache) (k : GridKey) (v : List HexId) :
    cacheGet ((k, v) :: c) k = some v := by
  simp [cacheGet]

lemma processCells_get_mono (res : ℕ) (cells : List (ℤ × ℤ)) :
    ∀ (c : GridCache) (acc : List HexId) (hits misses : ℕ) (k : GridKey)
      (v : List HexId), cacheGet c k = some v →
      cacheGet (processCells res cells c acc hits misses).cache k = some v := by
  induction cells with
  | nil =>
    intro c acc hits misses k v h
    simpa [processCells] using h
  | cons cell rest ih =>
    intro c acc hits misses k v h
    obtain ⟨latCell, lngCell⟩ := cell
    cases hl : cacheGet c (res, latCell, lngCell) with
    | some cellHexes =>
      simp only [processCells, hl]
      exact ih _ _ _ _ _ _ h
    | none =>
      simp only [processCells, hl]
      apply ih
      have hk : k ≠ (res, latCell, lngCell) := by
        rintro rfl
        rw [h] at hl
        exact Option.noConfusion hl
      simp only [cacheGet, if_neg hk]
      exact h

lemma mem_insertAbsent_left {acc : List HexId} {h x : HexId} (hx : x ∈ acc) :
    x ∈ insertAbsent acc h := by
  unfold insertAbsent
  split_ifs <;> simp [hx]

lemma mem_insertAbsent_self (acc : List HexId) (h : HexId) :
    h ∈ insertAbsent acc h := by
  unfold insertAbsent
  split_ifs with hmem
  · exact hmem
  · simp

lemma mem_addHexes_left {l acc : List HexId} {x : HexId} (hx : x ∈ acc) :
    x ∈ addHexes acc l := by
  induction l generalizing acc with
  | nil => simpa [addHexes]
  | cons y ys ih =>
    simp only [addHexes, List.foldl_cons]
    exact ih (mem_insertAbsent_left hx)

lemma mem_addHexes_right {l acc : List HexId} {x : HexId} (hx : x ∈ l) :
    x ∈ addHexes acc l := by
  induction l generalizing acc with
  | nil => cases hx
  | cons y ys ih =>
    simp only [addHexes, List.foldl_cons]
    rcases List.mem_cons.mp hx with rfl | hx'
    · exact mem_addHexes_left (mem_insertAbsent_self acc x)
    · exact ih hx'

lemma processCells_mem_acc (res : ℕ) (cells : List (ℤ × ℤ)) :
    ∀ (c : GridCache) (acc : List HexId) (hits misses : ℕ) (x : HexId),
      x ∈ acc → x ∈ (processCells res cells c acc hits misses).hexes := by
  induction cells with
  | nil =>
    intro c acc hits misses x hx
    simpa [processCells] using hx
  | cons cell rest ih =>
    intro c acc hits misses x hx
    obtain ⟨latCell, lngCell⟩ := cell
    cases hl : cacheGet c (res, latCell, lngCell) with
    | some cellHexes =>
      simp only [processCells, hl]
      exact ih _ _ _ _ _ (mem_addHexes_left hx)
    | none =>
      simp only [processCells, hl]
      exact ih _ _ _ _ _ (mem_addHexes_left hx)

lemma Coherent_insert {c : GridCache} (res : ℕ) (latCell lngCell : ℤ)
    (hc : Coherent c) :
    Coherent (((res, latCell, lngCell),
      computeGridCellHexes latCell lngCell res) :: c) := by
  intro r a b v h
  rw [cacheGet] at h
  by_cases hk : ((r, a, b) : GridKey) = (res, latCell, lngCell)
  · rw [if_pos hk] at h
    rw [Prod.mk.injEq, Prod.mk.injEq] at hk
    obtain ⟨rfl, rfl, rfl⟩ := hk
    injection h with h'
    exact h'.symm
  · rw [if_neg hk] at h
    exact hc _ _ _ _ h

lemma processCells_covers (res : ℕ) (cells : List (ℤ × ℤ)) :
    ∀ (c : GridCache) (acc : List HexId) (hits misses : ℕ), Coherent c →
      ∀ latCell lngCell, (latCell, lngCell) ∈ cells →
      ∀ x ∈ computeGridCellHexes latCell lngCell res,
        x ∈ (processCells res cells c acc hits misses).hexes := by
  induction cells with
  | nil =>
    intro c acc hits misses _ latCell lngCell hmem
    cases hmem
  | cons cell rest ih =>
    intro c acc hits misses hc latCell lngCell hmem x hx
    obtain ⟨a0, b0⟩ := cell
    rcases List.mem_cons.mp hmem with heq | hrest
    · rw [Prod.mk.injEq] at heq
      obtain ⟨rfl, rfl⟩ := heq
      cases hl : cacheGet c (res, latCell, lngCell) with
      | some cellHexes =>
        simp only [processCells, hl]
        have hv : cellHexes = computeGridCellHexes latCell lngCell res :=
          hc _ _ _ _ hl
        exact processCells_mem_acc res rest _ _ _ _ x (mem_addHexes_right (hv ▸ hx))
      | none =>
        simp only [processCells, hl]
        exact processCells_mem_acc res rest _ _ _ _ x (mem_addHexes_right hx)
    · cases hl : cacheGet c (res, a0, b0) with
      | some cellHexes =>
        simp only [processCells, hl]
        exact ih _ _ _ _ hc latCell lngCell hrest x hx
      | none =>
        simp only [processCells, hl]
        exact ih _ _ _ _ (Coherent_insert res a0 b0 hc) latCell lngCell hrest x hx

lemma processCells_replay (res : ℕ) (cells : List (ℤ × ℤ)) :
    ∀ (c : GridCache) (acc : List HexId) (hits misses : ℕ)
      (acc2 : List HexId) (hits2 misses2 : ℕ),
      (processCells res cells (processCells res cells c acc hits misses).cache
          acc2 hits2 misses2).cache
        = (processCells res cells c acc hits misses).cache ∧
      (processCells res cells (processCells res cells c acc hits misses).cache
          acc2 hits2 misses2).cacheMisses = misses2 ∧
      (processCells res cells (processCells res cells c acc hits misses).cache
          acc2 hits2 misses2).cacheHits = hits2 + cells.length ∧
      ∃ vs : List (List HexId),
        (processCells res cells c acc hits misses).hexes = vs.foldl addHexes acc ∧
        (processCells res cells (processCells res cells c acc hits misses).cache
            acc2 hits2 misses2).hexes = vs.foldl addHexes acc2 := by
  induction cells with
  | nil =>
    intro c acc hits misses acc2 hits2 misses2
    refine ⟨rfl, rfl, rfl, [], rfl, rfl⟩
  | cons cell rest ih =>
    intro c acc hits misses acc2 hits2 misses2
    obtain ⟨a0, b0⟩ := cell
    cases hl : cacheGet c (res, a0, b0) with
    | some v =>
      have hget : cacheGet (processCells res rest c (addHexes acc v) (hits + 1)
          misses).cache (res, a0, b0) = some v :=
        processCells_get_mono res rest c _ _ _ _ _ hl
      simp only [processCells, hl, hget, List.length_cons]
      obtain ⟨h1, h2, h3, vs, h4, h5⟩ :=
        ih c (addHexes acc v) (hits + 1) misses (addHexes acc2 v) (hits2 + 1) misses2
      refine ⟨h1, h2, by omega, v :: vs, ?_, ?_⟩
      · simpa [List.foldl_cons] using h4
      · simpa [List.foldl_cons] using h5
    | none =>
      have hself : cacheGet (((res, a0, b0),
          computeGridCellHexes a0 b0 res) :: c) (res, a0, b0)
          = some (computeGridCellHexes a0 b0 res) := cacheGet_insert_self _ _ _
      have hget : cacheGet (processCells res rest
          (((res, a0, b0), computeGridCellHexes a0 b0 res) :: c)
          (addHexes acc (computeGridCellHexes a0 b0 res)) hits (misses + 1)).cache
          (res, a0, b0) = some (computeGridCellHexes a0 b0 res) :=
        processCells_get_mono res rest _ _ _ _ _ _ hself
      simp only [processCells, hl, hget, List.length_cons]
      obtain ⟨h1, h2, h3, vs, h4, h5⟩ :=
        ih (((res, a0, b0), computeGridCellHexes a0 b0 res) :: c)
          (addHexes acc (computeGridCellHexes a0 b0 res)) hits (misses + 1)
          (addHexes acc2 (computeGridCellHexes a0 b0 res)) (hits2 + 1) misses2
      refine ⟨h1, h2, by omega, computeGridCellHexes a0 b0 res :: vs, ?_, ?_⟩
      · simpa [List.foldl_cons] using h4
      · simpa [List.foldl_cons] using h5

/- The per-axis covering argument: any hex index meeting the unexpanded
interval lies in some enumerated grid cell of the padded interval. -/

lemma axis_cover {cs hs vMin vMax eMin eMax : ℚ} (hcs : 0 < cs) (hhs : 0 < hs)
    (h1 : eMin ≤ vMin) (h2 : vMax ≤ eMax) (hv : vMin ≤ vMax) {i : ℤ}
    (hi1 : ⌊vMin / hs⌋ ≤ i) (hi2 : i ≤ ⌊vMax / hs⌋) :
    ∃ k : ℤ, ⌊eMin / cs⌋ ≤ k ∧ k ≤ ⌊eMax / cs⌋ ∧
      ⌊((k : ℚ) * cs) / hs⌋ ≤ i ∧ i ≤ ⌊(((k : ℚ) + 1) * cs) / hs⌋ := by
  have hihs : (i : ℚ) * hs ≤ vMax := by
    have : (i : ℚ) ≤ vMax / hs := by
      calc (i : ℚ) ≤ (⌊vMax / hs⌋ : ℚ) := by exact_mod_cast hi2
        _ ≤ vMax / hs := Int.floor_le _
    exact (le_div_iff hhs).mp this
  have hvlt : vMin < ((i : ℚ) + 1) * hs := by
    have h3 : vMin / hs < (⌊vMin / hs⌋ : ℚ) + 1 := Int.lt_floor_add_one _
    have h4 : ((⌊vMin / hs⌋ : ℚ) + 1) ≤ (i : ℚ) + 1 := by
      have : (⌊vMin / hs⌋ : ℚ) ≤ (i : ℚ) := by exact_mod_cast hi1
      linarith
    have h5 : vMin / hs < (i : ℚ) + 1 := lt_of_lt_of_le h3 h4
    calc vMin = vMin / hs * hs := by field_simp
      _ < ((i : ℚ) + 1) * hs := by
          exact mul_lt_mul_of_pos_right h5 hhs
  set p := max vMin ((i : ℚ) * hs) with hp
  have hp1 : vMin ≤ p := le_max_left _ _
  have hp2 : (i : ℚ) * hs ≤ p := le_max_right _ _
  have hp3 : p ≤ vMax := max_le hv hihs
  have hp4 : p < ((i : ℚ) + 1) * hs := by
    apply max_lt hvlt
    have : (i : ℚ) < (i : ℚ) + 1 := by linarith
    exact mul_lt_mul_of_pos_right this hhs
  refine ⟨⌊p / cs⌋, ?_, ?_, ?_, ?_⟩
  · exact Int.floor_mono (by
      apply div_le_div_of_nonneg_right ?_ hcs.le
      linarith)
  · exact Int.floor_mono (by
      apply div_le_div_of_nonneg_right ?_ hcs.le
      linarith)
  · have hkcs : (⌊p / cs⌋ : ℚ) * cs ≤ p := by
      have := Int.floor_le (p / cs)
      calc (⌊p / cs⌋ : ℚ) * cs ≤ p / cs * cs := mul_le_mul_of_nonneg_right this hcs.le
        _ = p := by field_simp
    have : (⌊p / cs⌋ : ℚ) * cs / hs < (i : ℚ) + 1 := by
      rw [div_lt_iff hhs]
      calc (⌊p / cs⌋ : ℚ) * cs ≤ p := hkcs
        _ < ((i : ℚ) + 1) * hs := hp4
    have hfl : ⌊(⌊p / cs⌋ : ℚ) * cs / hs⌋ < i + 1 := by
      rw [Int.floor_lt]
      exact_mod_cast this
    omega
  · have hpcs : p < ((⌊p / cs⌋ : ℚ) + 1) * cs := by
      have := Int.lt_floor_add_one (p / cs)
      calc p = p / cs * cs := by field_simp
        _ < ((⌊p / cs⌋ : ℚ) + 1) * cs := mul_lt_mul_of_pos_right this hcs
    have : (i : ℚ) ≤ ((⌊p / cs⌋ : ℚ) + 1) * cs / hs := by
      rw [le_div_iff hhs]
      calc (i : ℚ) * hs ≤ p := hp2
        _ ≤ ((⌊p / cs⌋ : ℚ) + 1) * cs := hpcs.le
    exact Int.le_floor.mpr (by exact_mod_cast this)

/- Helper lemmas about ring closing and deduplication. -/

lemma chain_dedupGo (xs : List Pt) : ∀ prev : Pt,
    List.Chain' (fun a b => a ≠ b) (prev :: dedupGo prev xs) := by
  induction xs with
  | nil =>
    intro prev
    simp [dedupGo]
  | cons x xs ih =>
    intro prev
    by_cases hx : x = prev
    · simpa [dedupGo, hx] using ih prev
    · simp only [dedupGo, if_neg hx]
      exact List.Chain'.cons (fun h => hx h.symm) (ih x)

lemma chain_dedupConsec (l : List Pt) :
    List.Chain' (fun a b => a ≠ b) (dedupConsec l) := by
  cases l with
  | nil => simp [dedupConsec]
  | cons a rest => exact chain_dedupGo rest a

lemma closeRing_closed (l : List Pt) : ringClosed (closeRing l) := by
  cases l with
  | nil => simp [closeRing, ringClosed]
  | cons a rest =>
    rw [closeRing]
    split_ifs with h
    · rw [ringClosed, List.head?_cons, h]
    · rw [ringClosed]
      rw [List.getLast?_concat]
      rw [List.head?_append_of_ne_nil]
      · rw [List.head?_cons]
      · simp

lemma closeRing_chain {l : List Pt}
    (hc : List.Chain' (fun a b => a ≠ b) l) :
    List.Chain' (fun a b => a ≠ b) (closeRing l) := by
  cases l with
  | nil => simpa [closeRing] using hc
  | cons a rest =>
    rw [closeRing]
    split_ifs with h
    · exact hc
    · rw [List.chain'_append]
      refine ⟨hc, List.chain'_singleton a, ?_⟩
      intro x hx y hy
      rw [List.head?_cons, Option.mem_def] at hy
      cases hy
      intro hxy
      apply h
      rw [Option.mem_def] at hx
      rw [hx]
      rw [hxy]

lemma toClosedLatLngRing_closed (coords : List Pt) :
    ringClosed (toClosedLatLngRing coords) :=
  closeRing_closed (dedupConsec coords)

lemma toClosedLatLngRing_chain (coords : List Pt) :
    consecDistinct (toClosedLatLngRing coords) :=
  closeRing_chain (chain_dedupConsec coords)

/- The hole list of the fog builder is exactly the filtered list of closed
visited outer rings. -/

lemma holesFromMulti_eq (visitedMulti : List (List (List Pt))) :
    holesFromMulti visitedMulti =
      (visitedMulti.map (fun poly => toClosedLatLngRing (poly.headD []))).filter
        (fun ring => 4 ≤ ring.length) := by
  have key : ∀ (L : List (List (List Pt))) (acc : List (List Pt)),
      L.foldl (fun acc poly =>
        let ring := toClosedLatLngRing (poly.headD [])
        if 4 ≤ ring.length then acc ++ [ring] else acc) acc =
      acc ++ (L.map (fun poly => toClosedLatLngRing (poly.headD []))).filter
        (fun ring => 4 ≤ ring.length) := by
    intro L
    induction L with
    | nil => intro acc; simp
    | cons poly rest ih =>
      intro acc
      simp only [List.foldl_cons, List.map_cons, List.filter_cons,
        decide_eq_true_eq]
      by_cases h : 4 ≤ (toClosedLatLngRing (poly.headD [])).length
      · rw [if_pos h, if_pos h, ih]
        simp
      · rw [if_neg h, if_neg h, ih]
  unfold holesFromMulti
  rw [key]
  simp

lemma holesFromMulti_length (visitedMulti : List (List (List Pt))) :
    ∀ ring ∈ holesFromMulti visitedMulti, 4 ≤ ring.length := by
  intro ring hring
  rw [holesFromMulti_eq] at hring
  have := List.of_mem_filter hring
  simpa using this

/- The if-chain abstraction used for the resolution selector. -/

lemma chainVal_le : ∀ (L : List (ℚ × ℕ)) (deflt r : ℕ),
    (∀ p ∈ L, p.2 ≤ r) → deflt ≤ r → ∀ d, chainVal L deflt d ≤ r := by
  intro L
  induction L with
  | nil =>
    intro deflt r _ h2 d
    simpa [chainVal] using h2
  | cons p rest ih =>
    intro deflt r h1 h2 d
    obtain ⟨t, v⟩ := p
    simp only [chainVal]
    split_ifs with hd
    · exact h1 (t, v) (List.mem_cons_self _ _)
    · exact ih deflt r (fun q hq => h1 q (List.mem_cons_of_mem _ hq)) h2 d

lemma chainVal_anti : ∀ (L : List (ℚ × ℕ)) (deflt : ℕ),
    List.Pairwise (fun p q => q.2 ≤ p.2) L → (∀ p ∈ L, deflt ≤ p.2) →
    ∀ a b : ℚ, a ≤ b → chainVal L deflt b ≤ chainVal L deflt a := by
  intro L
  induction L with
  | nil =>
    intro deflt _ _ a b _
    simp [chainVal]
  | cons p rest ih =>
    intro deflt hp hd a b hab
    obtain ⟨t, v⟩ := p
    rw [List.pairwise_cons] at hp
    obtain ⟨hp1, hp2⟩ := hp
    simp only [chainVal]
    by_cases hb : b < t
    · rw [if_pos hb, if_pos (lt_of_le_of_lt hab hb)]
    · rw [if_neg hb]
      by_cases ha : a < t
      · rw [if_pos ha]
        exact chainVal_le rest deflt v hp1
          (hd (t, v) (List.mem_cons_self _ _)) b
      · rw [if_neg ha]
        exact ih deflt hp2 (fun q hq => hd q (List.mem_cons_of_mem _ hq)) a b hab

lemma getDisplayRes_eq_chainVal (d : ℚ) :
    getDisplayRes d = chainVal
      [(0.04, 10), (0.1, 9), (0.3, 8), (0.9, 7), (2, 6),
       (4, 5), (10, 4), (22, 3), (50, 2), (90, 1)] 0 d := rfl

/- Concrete evaluations used by the examples and witnesses. -/

lemma cells_eval_W : getGridCellsForRegion wRegion 10 4 = [(0, 0)] := by
  have fla : ⌊(wRegion.latitude - wRegion.latitudeDelta * 4 / 2 - hexPadding 10) /
      gridCellSize 10⌋ = 0 := by
    have h : (wRegion.latitude - wRegion.latitudeDelta * 4 / 2 - hexPadding 10) /
        gridCellSize 10 = 1 / 10 := by
      norm_num [wRegion, hexPadding, gridCellSize]
    rw [h, Int.floor_eq_iff] <;> norm_num
  have flb : ⌊(wRegion.latitude + wRegion.latitudeDelta * 4 / 2 + hexPadding 10) /
      gridCellSize 10⌋ = 0 := by
    have h : (wRegion.latitude + wRegion.latitudeDelta * 4 / 2 + hexPadding 10) /
        gridCellSize 10 = 9 / 10 := by
      norm_num [wRegion, hexPadding, gridCellSize]
    rw [h, Int.floor_eq_iff] <;> norm_num
  have flc : ⌊(wRegion.longitude - wRegion.longitudeDelta * 4 / 2 - hexPadding 10) /
      gridCellSize 10⌋ = 0 := by
    have h : (wRegion.longitude - wRegion.longitudeDelta * 4 / 2 - hexPadding 10) /
        gridCellSize 10 = 1 / 10 := by
      norm_num [wRegion, hexPadding, gridCellSize]
    rw [h, Int.floor_eq_iff] <;> norm_num
  have fld : ⌊(wRegion.longitude + wRegion.longitudeDelta * 4 / 2 + hexPadding 10) /
      gridCellSize 10⌋ = 0 := by
    have h : (wRegion.longitude + wRegion.longitudeDelta * 4 / 2 + hexPadding 10) /
        gridCellSize 10 = 9 / 10 := by
      norm_num [wRegion, hexPadding, gridCellSize]
    rw [h, Int.floor_eq_iff] <;> norm_num
  simp only [getGridCellsForRegion]
  rw [fla, flb, flc, fld]
  decide

lemma computeHexes_eval_00 : computeGridCellHexes 0 0 10 = wHexes9 := by
  rw [computeGridCellHexes_eq]
  have f0 : ⌊((0 : ℤ) : ℚ) * gridCellSize 10 / hexSize 10⌋ = 0 := by
    have h : ((0 : ℤ) : ℚ) * gridCellSize 10 / hexSize 10 = 0 := by
      norm_num
    rw [h]
    exact Int.floor_zero
  have f2 : ⌊(((0 : ℤ) : ℚ) + 1) * gridCellSize 10 / hexSize 10⌋ = 2 := by
    have h : (((0 : ℤ) : ℚ) + 1) * gridCellSize 10 / hexSize 10 = 2 := by
      norm_num [gridCellSize, hexSize]
    rw [h, Int.floor_eq_iff] <;> norm_num
  unfold hexesInBox
  rw [f0, f2]
  decide

lemma run_eval_W : getHexesFromGridCache [] wRegion 10 4 =
    ⟨wHexes9, 0, 1, [((10, 0, 0), wHexes9)]⟩ := by
  unfold getHexesFromGridCache
  rw [cells_eval_W]
  simp only [processCells, cacheGet]
  rw [computeHexes_eval_00]
  decide

lemma gdr_W : getDisplayRes wRegion.latitudeDelta = 10 := by
  norm_num [wRegion, getDisplayRes]

lemma fog_eval_empty : fogCompute (fun _ => []) [] [] wRegion =
    (⟨[⟨fogKey 10, fogOuterRing, []⟩], none, 10⟩, [((10, 0, 0), wHexes9)]) := by
  simp only [fogCompute, gdr_W, run_eval_W]
  decide

lemma fog_eval_holes :
    fogCompute (fun _ => [ [[((0 : ℚ), (0 : ℚ)), (0, 0)]],
        [[((0 : ℚ), (0 : ℚ)), (0, 1), (1, 1), (1, 0)]] ])
      [] [(10, 0, 0)] wRegion =
    (⟨[⟨fogKey 10, fogOuterRing,
        [[((0 : ℚ), (0 : ℚ)), (0, 1), (1, 1), (1, 0), (0, 0)]]⟩], none, 10⟩,
      [((10, 0, 0), wHexes9)]) := by
  simp only [fogCompute, gdr_W, run_eval_W]
  decide

lemma capMessage_ne_empty (n : ℕ) : capMessage n ≠ "" := by
  intro h
  have hl := congrArg String.length h
  rw [capMessage, String.length_append, String.length_append] at hl
  have h30 : "Tiles hidden: too many hexes (".length = 30 := rfl
  have h1 : ")".length = 1 := rfl
  have h0 : ("" : String).length = 0 := rfl
  rw [h30, h1, h0] at hl
  omega

lemma run_hexes_ne_nil (cache : GridCache) (region : Region) (res : ℕ)
    (mult : ℚ) (hcoh : Coherent cache)
    (hd : 0 ≤ region.latitudeDelta * mult) (he : 0 ≤ region.longitudeDelta * mult) :
    (getHexesFromGridCache cache region res mult).hexes ≠ [] := by
  have hpad := hexPadding_pos res
  have hcs := gridCellSize_pos res
  have hhs := hexSize_pos res
  have hlatle : region.latitude - region.latitudeDelta * mult / 2 - hexPadding res ≤
      region.latitude + region.latitudeDelta * mult / 2 + hexPadding res := by
    linarith
  have hlngle : region.longitude - region.longitudeDelta * mult / 2 - hexPadding res ≤
      region.longitude + region.longitudeDelta * mult / 2 + hexPadding res := by
    linarith
  have hcell : (⌊(region.latitude - region.latitudeDelta * mult / 2 - hexPadding res) /
        gridCellSize res⌋,
      ⌊(region.longitude - region.longitudeDelta * mult / 2 - hexPadding res) /
        gridCellSize res⌋) ∈ getGridCellsForRegion region res mult := by
    refine mem_getGridCellsForRegion.mpr ⟨⟨le_refl _, ?_⟩, ⟨le_refl _, ?_⟩⟩
    · exact Int.floor_mono (div_le_div_of_nonneg_right hlatle hcs.le)
    · exact Int.floor_mono (div_le_div_of_nonneg_right hlngle hcs.le)
  set ka := ⌊(region.latitude - region.latitudeDelta * mult / 2 - hexPadding res) /
      gridCellSize res⌋ with hka
  set kb := ⌊(region.longitude - region.longitudeDelta * mult / 2 - hexPadding res) /
      gridCellSize res⌋ with hkb
  have hhex : ((res, ⌊(ka : ℚ) * gridCellSize res / hexSize res⌋,
      ⌊(kb : ℚ) * gridCellSize res / hexSize res⌋) : HexId) ∈
      computeGridCellHexes ka kb res := by
    rw [computeGridCellHexes_eq]
    refine mem_hexesInBox.mpr ⟨rfl, ⟨le_refl _, ?_⟩, ⟨le_refl _, ?_⟩⟩
    · refine Int.floor_mono (div_le_div_of_nonneg_right ?_ hhs.le)
      have : (ka : ℚ) ≤ (ka : ℚ) + 1 := by linarith
      exact mul_le_mul_of_nonneg_right this hcs.le
    · refine Int.floor_mono (div_le_div_of_nonneg_right ?_ hhs.le)
      have : (kb : ℚ) ≤ (kb : ℚ) + 1 := by linarith
      exact mul_le_mul_of_nonneg_right this hcs.le
  unfold getHexesFromGridCache
  exact List.ne_nil_of_mem
    (processCells_covers res _ cache [] 0 0 hcoh ka kb hcell _ hhex)

lemma viewport_fill_eval :
    polyfill (regionToViewportRing wRegion 1) 10 false = [(10, 1, 1)] := by
  rw [polyfill_viewportRing wRegion 1 10 false (by norm_num [wRegion])
    (by norm_num [wRegion])]
  have f1 : ⌊(wRegion.latitude - wRegion.latitudeDelta * 1 / 2) / hexSize 10⌋ = 1 := by
    have h : (wRegion.latitude - wRegion.latitudeDelta * 1 / 2) / hexSize 10 = 1 := by
      norm_num [wRegion, hexSize, gridCellSize]
    rw [h, Int.floor_eq_iff] <;> norm_num
  have f2 : ⌊(wRegion.latitude + wRegion.latitudeDelta * 1 / 2) / hexSize 10⌋ = 1 := by
    have h : (wRegion.latitude + wRegion.latitudeDelta * 1 / 2) / hexSize 10 = 1 := by
      norm_num [wRegion, hexSize, gridCellSize]
    rw [h, Int.floor_eq_iff] <;> norm_num
  have f3 : ⌊(wRegion.longitude - wRegion.longitudeDelta * 1 / 2) / hexSize 10⌋ = 1 := by
    have h : (wRegion.longitude - wRegion.longitudeDelta * 1 / 2) / hexSize 10 = 1 := by
      norm_num [wRegion, hexSize, gridCellSize]
    rw [h, Int.floor_eq_iff] <;> norm_num
  have f4 : ⌊(wRegion.longitude + wRegion.longitudeDelta * 1 / 2) / hexSize 10⌋ = 1 := by
    have h : (wRegion.longitude + wRegion.longitudeDelta * 1 / 2) / hexSize 10 = 1 := by
      norm_num [wRegion, hexSize, gridCellSize]
    rw [h, Int.floor_eq_iff] <;> norm_num
  unfold hexesInBox
  rw [f1, f2, f3, f4]
  decide

lemma cells_eval_C6 : getGridCellsForRegion ⟨37.42, -88.31, 0.01, 0.01⟩ 10 1 =
    [(3741, -8832), (3741, -8831), (3742, -8832), (3742, -8831)] := by
  have fla : ⌊((⟨37.42, -88.31, 0.01, 0.01⟩ : Region).latitude -
      (⟨37.42, -88.31, 0.01, 0.01⟩ : Region).latitudeDelta * 1 / 2 - hexPadding 10) /
      gridCellSize 10⌋ = 3741 := by
    have h : ((⟨37.42, -88.31, 0.01, 0.01⟩ : Region).latitude -
        (⟨37.42, -88.31, 0.01, 0.01⟩ : Region).latitudeDelta * 1 / 2 - hexPadding 10) /
        gridCellSize 10 = 37411 / 10 := by
      norm_num [hexPadding, gridCellSize]
    rw [h, Int.floor_eq_iff] <;> norm_num
  have flb : ⌊((⟨37.42, -88.31, 0.01, 0.01⟩ : Region).latitude +
      (⟨37.42, -88.31, 0.01, 0.01⟩ : Region).latitudeDelta * 1 / 2 + hexPadding 10) /
      gridCellSize 10⌋ = 3742 := by
    have h : ((⟨37.42, -88.31, 0.01, 0.01⟩ : Region).latitude +
        (⟨37.42, -88.31, 0.01, 0.01⟩ : Region).latitudeDelta * 1 / 2 + hexPadding 10) /
        gridCellSize 10 = 37429 / 10 := by
      norm_num [hexPadding, gridCellSize]
    rw [h, Int.floor_eq_iff] <;> norm_num
  have flc : ⌊((⟨37.42, -88.31, 0.01, 0.01⟩ : Region).longitude -
      (⟨37.42, -88.31, 0.01, 0.01⟩ : Region).longitudeDelta * 1 / 2 - hexPadding 10) /
      gridCellSize 10⌋ = -8832 := by
    have h : ((⟨37.42, -88.31, 0.01, 0.01⟩ : Region).longitude -
        (⟨37.42, -88.31, 0.01, 0.01⟩ : Region).longitudeDelta * 1 / 2 - hexPadding 10) /
        gridCellSize 10 = -88319 / 10 := by
      norm_num [hexPadding, gridCellSize]
    rw [h, Int.floor_eq_iff] <;> norm_num
  have fld : ⌊((⟨37.42, -88.31, 0.01, 0.01⟩ : Region).longitude +
      (⟨37.42, -88.31, 0.01, 0.01⟩ : Region).longitudeDelta * 1 / 2 + hexPadding 10) /
      gridCellSize 10⌋ = -8831 := by
    have h : ((⟨37.42, -88.31, 0.01, 0.01⟩ : Region).longitude +
        (⟨37.42, -88.31, 0.01, 0.01⟩ : Region).longitudeDelta * 1 / 2 + hexPadding 10) /
        gridCellSize 10 = -88301 / 10 := by
      norm_num [hexPadding, gridCellSize]
    rw [h, Int.floor_eq_iff] <;> norm_num
  simp only [getGridCellsForRegion]
  rw [fla, flb, flc, fld]
  decide

/- The claim theorems. -/

/-- C1: Cap enforcement in the fog computation.  For every region, a
viewport hex superset of size at most 10000 proceeds normally (the status
of the result is null), while a superset of 10001 or more hexes yields an
empty polygon list together with the non-empty status string reporting the
hex count.  The embedded computation is a total function, so no failure is
thrown or propagated in either case. -/
theorem fog_cap_enforcement (mp : List HexId → List (List (List Pt)))
    (cache : GridCache) (visited : List HexId) (region : Region) :
    (10001 ≤ (getHexesFromGridCache cache region
        (getDisplayRes region.latitudeDelta) 4).hexes.length →
      (fogCompute mp cache visited region).1.fogPolygons = [] ∧
      (fogCompute mp cache visited region).1.fogStatus =
        some (capMessage (getHexesFromGridCache cache region
          (getDisplayRes region.latitudeDelta) 4).hexes.length) ∧
      capMessage (getHexesFromGridCache cache region
        (getDisplayRes region.latitudeDelta) 4).hexes.length ≠ "") ∧
    ((getHexesFromGridCache cache region
        (getDisplayRes region.latitudeDelta) 4).hexes.length ≤ 10000 →
      (fogCompute mp cache visited region).1.fogStatus = none) := by
  constructor
  · intro h
    simp only [fogCompute]
    split_ifs with h1 h2 h3
    · exact ⟨rfl, rfl, capMessage_ne_empty _⟩
    · omega
    · omega
    · omega
  · intro h
    simp only [fogCompute]
    split_ifs with h1 h2 h3
    · omega
    · rfl
    · rfl
    · rfl

/-- C1 witness: on a small concrete region the superset has 9 hexes, below
the cap, and the fog status is null. -/
theorem fog_cap_enforcement_witness :
    (fogCompute (fun _ => []) [] [] wRegion).1.fogStatus = none :=
  (fog_cap_enforcement (fun _ => []) [] [] wRegion).2
    (by rw [gdr_W, run_eval_W]; decide)

/-- C2: Fog special cases.  Under the cap, with a coherent cache and
nonnegative spans (the caller contract of the spec), if no hex of the
viewport superset is in the resolved visited set the result is exactly one
polygon, the fixed outer boundary with no holes; if every hex of the
superset is visited the result has zero polygons. -/
theorem fog_special_cases (mp : List HexId → List (List (List Pt)))
    (cache : GridCache) (visited : List HexId) (region : Region)
    (hcoh : Coherent cache)
    (hd : 0 ≤ region.latitudeDelta) (he : 0 ≤ region.longitudeDelta)
    (hcap : (getHexesFromGridCache cache region
        (getDisplayRes region.latitudeDelta) 4).hexes.length ≤ 10000) :
    ((∀ h ∈ (getHexesFromGridCache cache region
          (getDisplayRes region.latitudeDelta) 4).hexes,
        h ∉ getVisitedAtRes visited (getDisplayRes region.latitudeDelta)) →
      (fogCompute mp cache visited region).1.fogPolygons =
        [⟨fogKey (getDisplayRes region.latitudeDelta), fogOuterRing, []⟩]) ∧
    ((∀ h ∈ (getHexesFromGridCache cache region
          (getDisplayRes region.latitudeDelta) 4).hexes,
        h ∈ getVisitedAtRes visited (getDisplayRes region.latitudeDelta)) →
      (fogCompute mp cache visited region).1.fogPolygons = []) := by
  have hne := run_hexes_ne_nil cache region (getDisplayRes region.latitudeDelta) 4
    hcoh (by linarith) (by linarith)
  constructor
  · intro hnone
    have hfil : List.filter
        (fun h => decide (h ∈ getVisitedAtRes visited (getDisplayRes region.latitudeDelta)))
        (getHexesFromGridCache cache region (getDisplayRes region.latitudeDelta) 4).hexes
        = [] :=
      List.filter_eq_nil.mpr (fun a ha => by simpa using hnone a ha)
    simp only [fogCompute]
    split_ifs with h1 h2 h3
    · omega
    · rfl
    · exact absurd (by rw [hfil]; rfl) h2
    · exact absurd (by rw [hfil]; rfl) h2
  · intro hall
    have hfil : List.filter
        (fun h => decide (h ∈ getVisitedAtRes visited (getDisplayRes region.latitudeDelta)))
        (getHexesFromGridCache cache region (getDisplayRes region.latitudeDelta) 4).hexes
        = (getHexesFromGridCache cache region (getDisplayRes region.latitudeDelta) 4).hexes :=
      List.filter_eq_self.mpr (fun a ha => by simpa using hall a ha)
    simp only [fogCompute]
    split_ifs with h1 h2 h3
    · omega
    · exact absurd (List.length_eq_zero.mp (hfil ▸ h2)) hne
    · rfl
    · exact absurd (by rw [hfil]) h3

/-- C2 witness: with an empty visited store on the concrete region the
result is exactly the outer boundary polygon with no holes. -/
theorem fog_special_cases_witness :
    (fogCompute (fun _ => []) [] [] wRegion).1.fogPolygons =
      [⟨fogKey (getDisplayRes wRegion.latitudeDelta), fogOuterRing, []⟩] :=
  (fog_special_cases (fun _ => []) [] [] wRegion
      (fun _ _ _ _ h => Option.noConfusion h)
      (by norm_num [wRegion]) (by norm_num [wRegion])
      (by rw [gdr_W, run_eval_W]; decide)).1
    (by rw [gdr_W, run_eval_W]; intro h hh; simp [getVisitedAtRes])

/-- C3: Conservative coverage of the Hex Set Assembler.  For every region
with nonnegative spans, resolution, expansion multiplier at least 1 and
coherent cache, every hex produced by the exact fill of the unexpanded
viewport rectangle is contained in the hexes returned by
`getHexesFromGridCache`. -/
theorem assembler_conservative (cache : GridCache) (region : Region)
    (res : ℕ) (mult : ℚ) (hm : 1 ≤ mult)
    (hd : 0 ≤ region.latitudeDelta) (he : 0 ≤ region.longitudeDelta)
    (hcoh : Coherent cache) :
    ∀ x ∈ polyfill (regionToViewportRing region 1) res false,
      x ∈ (getHexesFromGridCache cache region res mult).hexes := by
  intro x hx
  rw [polyfill_viewportRing region 1 res false (by linarith) (by linarith)] at hx
  obtain ⟨r', i, j⟩ := x
  rw [mem_hexesInBox] at hx
  obtain ⟨hr, ⟨hi1, hi2⟩, ⟨hj1, hj2⟩⟩ := hx
  rw [hr]
  have hcs := gridCellSize_pos res
  have hhs := hexSize_pos res
  have hpad := hexPadding_pos res
  have hdm : region.latitudeDelta * 1 ≤ region.latitudeDelta * mult :=
    mul_le_mul_of_nonneg_left hm hd
  have hem : region.longitudeDelta * 1 ≤ region.longitudeDelta * mult :=
    mul_le_mul_of_nonneg_left hm he
  obtain ⟨ka, hka1, hka2, hka3, hka4⟩ :=
    axis_cover hcs hhs
      (show region.latitude - region.latitudeDelta * mult / 2 - hexPadding res ≤
        region.latitude - region.latitudeDelta * 1 / 2 by linarith)
      (show region.latitude + region.latitudeDelta * 1 / 2 ≤
        region.latitude + region.latitudeDelta * mult / 2 + hexPadding res by linarith)
      (by linarith) hi1 hi2
  obtain ⟨kb, hkb1, hkb2, hkb3, hkb4⟩ :=
    axis_cover hcs hhs
      (show region.longitude - region.longitudeDelta * mult / 2 - hexPadding res ≤
        region.longitude - region.longitudeDelta * 1 / 2 by linarith)
      (show region.longitude + region.longitudeDelta * 1 / 2 ≤
        region.longitude + region.longitudeDelta * mult / 2 + hexPadding res by linarith)
      (by linarith) hj1 hj2
  unfold getHexesFromGridCache
  refine processCells_covers res _ cache [] 0 0 hcoh ka kb ?_ _ ?_
  · exact mem_getGridCellsForRegion.mpr ⟨⟨hka1, hka2⟩, ⟨hkb1, hkb2⟩⟩
  · rw [computeGridCellHexes_eq]
    exact mem_hexesInBox.mpr ⟨rfl, ⟨hka3, hka4⟩, ⟨hkb3, hkb4⟩⟩

/-- C3 witness: the single hex filling the unexpanded concrete viewport is
in the assembled set. -/
theorem assembler_conservative_witness :
    ((10, 1, 1) : HexId) ∈ (getHexesFromGridCache [] wRegion 10 4).hexes :=
  assembler_conservative [] wRegion 10 4 (by norm_num)
    (by norm_num [wRegion]) (by norm_num [wRegion])
    (fun _ _ _ _ h => Option.noConfusion h)
    (10, 1, 1) (by rw [viewport_fill_eval]; exact List.mem_singleton.mpr rfl)

/-- C4: Resolution Selector monotonicity.  For positive spans a smaller or
equal span never gets a coarser resolution, and at every threshold
boundary the coarser resolution is chosen. -/
theorem getDisplayRes_monotone_and_boundary :
    (∀ a b : ℚ, 0 < a → a ≤ b → getDisplayRes b ≤ getDisplayRes a) ∧
    (getDisplayRes 0.04 = 9 ∧ getDisplayRes 0.1 = 8 ∧ getDisplayRes 0.3 = 7 ∧
     getDisplayRes 0.9 = 6 ∧ getDisplayRes 2 = 5 ∧ getDisplayRes 4 = 4 ∧
     getDisplayRes 10 = 3 ∧ getDisplayRes 22 = 2 ∧ getDisplayRes 50 = 1 ∧
     getDisplayRes 90 = 0) := by
  constructor
  · intro a b _ hab
    rw [getDisplayRes_eq_chainVal, getDisplayRes_eq_chainVal]
    refine chainVal_anti _ 0 ?_ ?_ a b hab
    · norm_num [List.pairwise_cons]
    · intro p _
      exact Nat.zero_le _
  · refine ⟨?_, ?_, ?_, ?_, ?_, ?_, ?_, ?_, ?_, ?_⟩ <;> norm_num [getDisplayRes]

/-- C4 witness: the monotonicity applied at spans 1 and 2. -/
theorem getDisplayRes_monotone_witness : getDisplayRes 2 ≤ getDisplayRes 1 :=
  getDisplayRes_monotone_and_boundary.1 1 2 (by norm_num) (by norm_num)

/-- C5: Grid Cache idempotence and immutability.  A second assembler call
on the cache produced by a first call with the same region, resolution and
multiplier reports zero misses, one hit per enumerated cell, the same hex
list and the same cache; and one call never overwrites or removes an entry
already stored. -/
theorem grid_cache_idempotent (cache : GridCache) (region : Region)
    (res : ℕ) (mult : ℚ) :
    (getHexesFromGridCache (getHexesFromGridCache cache region res mult).cache
        region res mult).cacheMisses = 0 ∧
    (getHexesFromGridCache (getHexesFromGridCache cache region res mult).cache
        region res mult).cacheHits = (getGridCellsForRegion region res mult).length ∧
    (getHexesFromGridCache (getHexesFromGridCache cache region res mult).cache
        region res mult).hexes = (getHexesFromGridCache cache region res mult).hexes ∧
    (getHexesFromGridCache (getHexesFromGridCache cache region res mult).cache
        region res mult).cache = (getHexesFromGridCache cache region res mult).cache ∧
    (∀ k v, cacheGet cache k = some v →
      cacheGet (getHexesFromGridCache cache region res mult).cache k = some v) := by
  unfold getHexesFromGridCache
  obtain ⟨h1, h2, h3, vs, h4, h5⟩ :=
    processCells_replay res (getGridCellsForRegion region res mult) cache [] 0 0 [] 0 0
  refine ⟨h2, by rw [h3]; exact Nat.zero_add _, h5.trans h4.symm, h1, ?_⟩
  intro k v h
  exact processCells_get_mono res _ cache [] 0 0 k v h

/-- C5 witness: a pre-existing entry under an unrelated key survives an
assembler run unchanged. -/
theorem grid_cache_idempotent_witness :
    cacheGet (getHexesFromGridCache [((10, 5, 5), [(10, 0, 0)])] wRegion 10 1).cache
      (10, 5, 5) = some [(10, 0, 0)] :=
  (grid_cache_idempotent [((10, 5, 5), [(10, 0, 0)])] wRegion 10 1).2.2.2.2
    (10, 5, 5) [(10, 0, 0)] (by decide)

/-- C6 counterexample: at resolution 10 (grid cell size 0.01), the claimed
single requested cell list is not what `getGridCellsForRegion` returns for
center (37.42, -88.31) with spans 0.01 and multiplier 1; four cells are
requested because the padded box crosses the cell boundaries. -/
theorem gridcells_example_counterexample :
    getGridCellsForRegion ⟨37.42, -88.31, 0.01, 0.01⟩ 10 1 ≠ [(3742, -8831)] := by
  rw [cells_eval_C6]
  decide

/-- C6 amended: the call requests exactly the four cells with latCell in
3741..3742 and lngCell in -8832..-8831, among them (3742, -8831). -/
theorem gridcells_example_amended :
    getGridCellsForRegion ⟨37.42, -88.31, 0.01, 0.01⟩ 10 1 =
      [(3741, -8832), (3741, -8831), (3742, -8832), (3742, -8831)] :=
  cells_eval_C6

/-- C7: Directional prefetch example.  With previous center (0,0), new
center (0.5, 0) and spans 1, the detected direction is (1, 0) and the
offset region passed to the assembler has center (1.5, 0) and spans 2. -/
theorem prefetch_direction_example :
    detectDirection (some ⟨0, 0, 1, 1⟩) ⟨1/2, 0, 1, 1⟩ = (1, 0) ∧
    prefetchOffsetRegion ⟨1/2, 0, 1, 1⟩ (1, 0) = ⟨3/2, 0, 2, 2⟩ := by
  constructor
  · simp only [detectDirection]
    have c1 : (1 : ℚ) * 0.1 < |(1/2 : ℚ) - 0| := by
      rw [abs_of_nonneg] <;> norm_num
    have c2 : ¬ ((1 : ℚ) * 0.1 < |(0 : ℚ) - 0|) := by
      rw [abs_of_nonneg] <;> norm_num
    rw [if_pos c1, if_neg c2, if_pos (by norm_num : (0 : ℚ) < 1/2 - 0)]
  · simp only [prefetchOffsetRegion]
    rw [Region.mk.injEq]
    norm_num

/-- C8: Ring closure.  Every ring in the fog output, the outer boundary
and every hole produced through `toClosedLatLngRing`, has identical first
and last vertex and no two consecutive identical vertices. -/
theorem fog_rings_closed (mp : List HexId → List (List (List Pt)))
    (cache : GridCache) (visited : List HexId) (region : Region) :
    ∀ poly ∈ (fogCompute mp cache visited region).1.fogPolygons,
      (ringClosed poly.coordinates ∧ consecDistinct poly.coordinates) ∧
      ∀ hole ∈ poly.holes, ringClosed hole ∧ consecDistinct hole := by
  have houter1 : ringClosed fogOuterRing := by
    unfold ringClosed fogOuterRing
    decide
  have houter2 : consecDistinct fogOuterRing := by
    unfold consecDistinct fogOuterRing
    simp only [List.chain'_cons, List.chain'_singleton, and_true]
    refine ⟨?_, ?_, ?_, ?_⟩ <;> decide
  simp only [fogCompute]
  split_ifs
  · simp
  · intro poly hpoly
    rw [List.mem_singleton] at hpoly
    subst hpoly
    exact ⟨⟨houter1, houter2⟩, by simp⟩
  · simp
  · intro poly hpoly
    rw [List.mem_singleton] at hpoly
    subst hpoly
    refine ⟨⟨houter1, houter2⟩, ?_⟩
    intro hole hhole
    rw [holesFromMulti_eq] at hhole
    obtain ⟨p', _, rfl⟩ := List.mem_map.mp (List.mem_of_mem_filter hhole)
    exact ⟨toClosedLatLngRing_closed _, toClosedLatLngRing_chain _⟩

/-- C8 witness: applied to the polygon produced on the concrete region
with nothing visited. -/
theorem fog_rings_closed_witness :
    (ringClosed (⟨fogKey 10, fogOuterRing, []⟩ : FogPoly).coordinates ∧
      consecDistinct (⟨fogKey 10, fogOuterRing, []⟩ : FogPoly).coordinates) ∧
    ∀ hole ∈ (⟨fogKey 10, fogOuterRing, []⟩ : FogPoly).holes,
      ringClosed hole ∧ consecDistinct hole :=
  fog_rings_closed (fun _ => []) [] [] wRegion ⟨fogKey 10, fogOuterRing, []⟩
    (by rw [fog_eval_empty]; exact List.mem_singleton.mpr rfl)

/-- C9: Degenerate ring handling.  The hole list is exactly the closed
visited outer rings of at least 4 vertices, in order, so a merged ring
whose closed duplicate-free form has fewer than 4 vertices is silently
dropped, and every hole of every fog polygon has at least 4 vertices. -/
theorem degenerate_rings_dropped :
    (∀ multi : List (List (List Pt)),
      holesFromMulti multi =
        (multi.map (fun poly => toClosedLatLngRing (poly.headD []))).filter
          (fun ring => 4 ≤ ring.length)) ∧
    (∀ (mp : List HexId → List (List (List Pt))) (cache : GridCache)
      (visited : List HexId) (region : Region),
      ∀ poly ∈ (fogCompute mp cache visited region).1.fogPolygons,
      ∀ hole ∈ poly.holes, 4 ≤ hole.length) := by
  constructor
  · exact holesFromMulti_eq
  · intro mp cache visited region
    simp only [fogCompute]
    split_ifs
    · simp
    · intro poly hpoly
      rw [List.mem_singleton] at hpoly
      subst hpoly
      simp
    · simp
    · intro poly hpoly
      rw [List.mem_singleton] at hpoly
      subst hpoly
      intro hole hhole
      exact holesFromMulti_length _ hole hhole

/-- C9 witness: a merge result with one degenerate and one proper ring
produces exactly the proper closed ring as a hole, of length at least 4. -/
theorem degenerate_rings_dropped_witness :
    4 ≤ ([((0 : ℚ), (0 : ℚ)), (0, 1), (1, 1), (1, 0), (0, 0)] : List Pt).length :=
  degenerate_rings_dropped.2
    (fun _ => [ [[((0 : ℚ), (0 : ℚ)), (0, 0)]],
      [[((0 : ℚ), (0 : ℚ)), (0, 1), (1, 1), (1, 0)]] ])
    [] [(10, 0, 0)] wRegion
    ⟨fogKey 10, fogOuterRing,
      [[((0 : ℚ), (0 : ℚ)), (0, 1), (1, 1), (1, 0), (0, 0)]]⟩
    (by rw [fog_eval_holes]; exact List.mem_singleton.mpr rfl)
    [((0 : ℚ), (0 : ℚ)), (0, 1), (1, 1), (1, 0), (0, 0)]
    (List.mem_singleton.mpr rfl)

/-- C10: The fog computation always returns at most one polygon, and any
returned polygon has the hardcoded rectangle over latitudes 20..55 and
longitudes -130..-60 as its outer ring, independent of viewport and
visited data. -/
theorem fog_polygon_shape (mp : List HexId → List (List (List Pt)))
    (cache : GridCache) (visited : List HexId) (region : Region) :
    (fogCompute mp cache visited region).1.fogPolygons.length ≤ 1 ∧
    ∀ poly ∈ (fogCompute mp cache visited region).1.fogPolygons,
      poly.coordinates =
        [((20 : ℚ), (-130 : ℚ)), (55, -130), (55, -60), (20, -60), (20, -130)] := by
  simp only [fogCompute]
  split_ifs <;> constructor <;> simp [fogOuterRing]

/-- C10 witness: the polygon produced on the concrete region has the
hardcoded rectangle as its outer ring. -/
theorem fog_polygon_shape_witness :
    (⟨fogKey 10, fogOuterRing, []⟩ : FogPoly).coordinates =
      [((20 : ℚ), (-130 : ℚ)), (55, -130), (55, -60), (20, -60), (20, -130)] :=
  (fog_polygon_shape (fun _ => []) [] [] wRegion).2
    ⟨fogKey 10, fogOuterRing, []⟩
    (by rw [fog_eval_empty]; exact List.mem_singleton.mpr rfl)

end Vvander
